import Mathlib

/-!
Shallow embedding of the movie recommender of src/app.py and proofs about it.

The title column of the movies_df dataframe is modelled as a list of strings, the
similarity matrix as a list of rows of rational numbers (the Python floats are
similarity scores compared and formatted but never combined arithmetically, so
exact rationals model the values used).  Python exceptions caught by the code
(IndexError) are modelled with Option: none is a raised IndexError.
-/

/-- One entry of the list built by get_recommendations (src/app.py lines
76-81): the movie title together with the similarity score formatted as a
percentage string by the f-string on line 80. -/
structure RecMovie where
  title : String
  similarity : String
deriving DecidableEq, Repr

/-- Floor of a rational number, computed as numerator fdiv denominator. -/
def qfloor (q : ℚ) : ℤ := q.num.fdiv (q.den : ℤ)

/-- Round a rational to the nearest integer, ties going to the even integer,
which is the rounding Python format specifications apply. -/
def roundHalfEven (q : ℚ) : ℤ :=
  let f := qfloor q
  let r := q - (f : ℚ)
  if r < 1/2 then f
  else if 1/2 < r then f + 1
  else if f % 2 = 0 then f else f + 1

/-- Two-digit decimal rendering of a natural number below one hundred. -/
def pad2 (k : ℕ) : String := if k < 10 then "0" ++ toString k else toString k

/-- Model of the Python format specifier .2% applied to a similarity score
(src/app.py line 80): the value times 100 rendered with exactly two decimal
places and a trailing percent sign, so the value times 10000 rounded to the
nearest integer supplies the digits. -/
def formatPercent (q : ℚ) : String :=
  let n := roundHalfEven (q * 10000)
  let sign := if n < 0 then "-" else ""
  let m := n.natAbs
  sign ++ toString (m / 100) ++ "." ++ pad2 (m % 100) ++ "%"

/-- Normalisation of a Python slice bound against a list length: a negative
bound counts from the end of the list, and bounds are clamped to the list. -/
def pyBound (len i : ℤ) : ℤ := if i < 0 then max 0 (len + i) else min i len

/-- Python list slicing l[a:b] with unit step. -/
def pySlice {α : Type*} (l : List α) (a b : ℤ) : List α :=
  (l.drop (pyBound l.length a).toNat).take
    (pyBound l.length b - pyBound l.length a).toNat

/-- Stable insertion of an (index, score) pair into a score-descending list:
the new element goes after every element whose score is at least as large. -/
def insDesc (x : ℕ × ℚ) : List (ℕ × ℚ) → List (ℕ × ℚ)
  | [] => [x]
  | y :: ys => if y.2 ≤ x.2 then x :: y :: ys else y :: insDesc x ys

/-- Model of sorted(..., reverse=True, key=lambda x: x[1]) from src/app.py
lines 72-74: a stable sort, descending in the score component.  The CPython
sorted builtin is documented to be stable also with reverse=True: elements
comparing equal keep their original relative order. -/
def sortDesc : List (ℕ × ℚ) → List (ℕ × ℚ)
  | [] => []
  | x :: xs => insDesc x (sortDesc xs)

/-- The intermediate movies_list of get_recommendations (src/app.py lines
72-74): enumerate the similarity row, sort by score descending (stable), then
take the Python slice [1:n+1]. -/
def movies_list (distances : List ℚ) (n : ℤ) : List (ℕ × ℚ) :=
  pySlice (sortDesc (List.enum distances)) 1 (n + 1)

/-- The loop of src/app.py lines 76-81: each pair of movies_list is mapped to
a record whose title is looked up by position (iloc raises IndexError on an
out-of-range index, modelled as none) and whose similarity is the formatted
score.  A raised IndexError aborts the whole computation. -/
def buildRecs (titles : List String) : List (ℕ × ℚ) → Option (List RecMovie)
  | [] => some []
  | p :: ps =>
    match titles[p.1]? with
    | none => none
    | some t =>
      match buildRecs titles ps with
      | none => none
      | some rest => some ({ title := t, similarity := formatPercent p.2 } :: rest)

/-- Model of get_recommendations (src/app.py lines 62-86).  The movie index is
the position of the first title equal to the query (the pandas boolean mask
followed by .index[0]); an unmatched title, an out-of-range row index into the
similarity matrix, or an out-of-range column index all raise IndexError, which
the except clause on line 85 turns into None.  The count defaults to 5. -/
def get_recommendations (movie_title : String) (titles : List String)
    (similarity : List (List ℚ)) (n_recommendations : ℤ := 5) :
    Option (List RecMovie) :=
  match titles.findIdx? (fun t => t == movie_title) with
  | none => none
  | some movie_index =>
    match similarity[movie_index]? with
    | none => none
    | some distances => buildRecs titles (movies_list distances n_recommendations)

/-- Model of load_data (src/app.py lines 49-59).  The two pickle reads are
represented by their outcomes; if either read raises, the bare except branch
returns the pair (None, None).  No dimension check of any kind is performed
on the two artifacts. -/
def load_data (readMovies : Option (List String))
    (readSim : Option (List (List ℚ))) :
    Option (List String) × Option (List (List ℚ)) :=
  match readMovies with
  | none => (none, none)
  | some movies_df =>
    match readSim with
    | none => (none, none)
    | some similarity => (some movies_df, some similarity)

/-- Lower bound of the Streamlit count slider (src/app.py line 112). -/
def slider_min_value : ℕ := 3

/-- Upper bound of the Streamlit count slider (src/app.py line 113). -/
def slider_max_value : ℕ := 10

/-- Default value of the Streamlit count slider (src/app.py line 114). -/
def slider_default_value : ℕ := 5

/-- Model of Python regular-expression matching at the head of a text,
restricted to the pattern fragment used below: literal characters and the
metacharacter dot, compiled with re.IGNORECASE.  A literal character matches
one text character case-insensitively; dot matches any one character.  This
is the semantics pandas str.contains with case=False gives such a pattern,
regex=True being the pandas default. -/
def reMatchHere : List Char → List Char → Bool
  | [], _ => true
  | _ :: _, [] => false
  | p :: ps, c :: cs => (p == '.' || p.toLower == c.toLower) && reMatchHere ps cs

/-- The re.search behaviour underlying str.contains: the pattern may match
starting at any position of the text. -/
def reSearch (ps : List Char) : List Char → Bool
  | [] => reMatchHere ps []
  | c :: cs => reMatchHere ps (c :: cs) || reSearch ps cs

/-- Model of the filtering expression of src/app.py lines 137-139: the titles
kept, in catalog order, are those on which str.contains(search_query,
case=False) holds, the query being interpreted as a regular expression. -/
def filtered_movies (titles : List String) (search_query : String) : List String :=
  titles.filter (fun t => reSearch search_query.toList t.toList)

/-- Stated from the claim wording, not from the source: case-insensitive
literal matching of a pattern at the head of a text. -/
def litMatchHere : List Char → List Char → Bool
  | [], _ => true
  | _ :: _, [] => false
  | p :: ps, c :: cs => (p.toLower == c.toLower) && litMatchHere ps cs

/-- Stated from the claim wording: the pattern occurs literally, up to case,
somewhere in the text. -/
def litSearch (ps : List Char) : List Char → Bool
  | [] => litMatchHere ps []
  | c :: cs => litMatchHere ps (c :: cs) || litSearch ps cs

/-- Stated from the claim wording: the titles containing the query as a
case-insensitive literal substring, in catalog order. -/
def searchSpec (titles : List String) (search_query : String) : List String :=
  titles.filter (fun t => litSearch search_query.toList t.toList)

/-- The characters Python regular expressions treat specially outside a
character class. -/
def regexSpecialChars : List Char :=
  ['.', '^', '$', '*', '+', '?', '\x7b', '\x7d', '[', ']', '\\', '|', '(', ')']

/-- The ranking order realised by the stable descending sort of the engine:
strictly larger score first, and among equal scores the smaller original index
first. -/
def rankRel (a b : ℕ × ℚ) : Prop := b.2 < a.2 ∨ (a.2 = b.2 ∧ a.1 < b.1)

/-!  Helper lemmas about the embedded operations. -/

theorem mem_insDesc {x a : ℕ × ℚ} {l : List (ℕ × ℚ)} :
    a ∈ insDesc x l ↔ a = x ∨ a ∈ l := by
  induction l with
  | nil => simp [insDesc]
  | cons y ys ih =>
    by_cases h : y.2 ≤ x.2
    · simp only [insDesc, if_pos h, List.mem_cons]
    · simp only [insDesc, if_neg h, List.mem_cons, ih]
      tauto

theorem mem_sortDesc {a : ℕ × ℚ} {l : List (ℕ × ℚ)} :
    a ∈ sortDesc l ↔ a ∈ l := by
  induction l with
  | nil => simp [sortDesc]
  | cons x xs ih => simp [sortDesc, mem_insDesc, ih, List.mem_cons]

theorem length_insDesc (x : ℕ × ℚ) (l : List (ℕ × ℚ)) :
    (insDesc x l).length = l.length + 1 := by
  induction l with
  | nil => rfl
  | cons y ys ih =>
    by_cases h : y.2 ≤ x.2 <;> simp [insDesc, h, ih]

theorem length_sortDesc (l : List (ℕ × ℚ)) : (sortDesc l).length = l.length := by
  induction l with
  | nil => rfl
  | cons x xs ih => simp [sortDesc, length_insDesc, ih]

theorem pairwise_rankRel_insDesc {x : ℕ × ℚ} {l : List (ℕ × ℚ)}
    (hl : l.Pairwise rankRel) (hx : ∀ y ∈ l, x.1 < y.1) :
    (insDesc x l).Pairwise rankRel := by
  induction l with
  | nil => simp [insDesc]
  | cons y ys ih =>
    rcases List.pairwise_cons.mp hl with ⟨hy, hys⟩
    by_cases h : y.2 ≤ x.2
    · rw [insDesc, if_pos h]
      refine List.pairwise_cons.mpr ⟨?_, hl⟩
      intro z hz
      rcases List.mem_cons.mp hz with rfl | hz'
      · rcases eq_or_lt_of_le h with heq | hlt
        · exact Or.inr ⟨heq.symm, hx z (List.mem_cons_self _ _)⟩
        · exact Or.inl hlt
      · have hyz := hy z hz'
        have hzy : z.2 ≤ y.2 := by
          rcases hyz with h1 | ⟨h1, _⟩
          · exact le_of_lt h1
          · exact le_of_eq h1.symm
        rcases eq_or_lt_of_le (le_trans hzy h) with heq | hlt
        · exact Or.inr ⟨heq.symm, hx z (List.mem_cons_of_mem _ hz')⟩
        · exact Or.inl hlt
    · rw [insDesc, if_neg h]
      refine List.pairwise_cons.mpr
        ⟨?_, ih hys (fun z hz => hx z (List.mem_cons_of_mem _ hz))⟩
      intro z hz
      rcases mem_insDesc.mp hz with rfl | hz'
      · exact Or.inl (lt_of_not_le h)
      · exact hy z hz'

theorem pairwise_rankRel_sortDesc {l : List (ℕ × ℚ)}
    (h : l.Pairwise fun a b => a.1 < b.1) : (sortDesc l).Pairwise rankRel := by
  induction l with
  | nil => simp [sortDesc]
  | cons x xs ih =>
    rcases List.pairwise_cons.mp h with ⟨hx, hxs⟩
    exact pairwise_rankRel_insDesc (ih hxs) (fun y hy => hx y (mem_sortDesc.mp hy))

theorem pairwise_fst_lt_enum (l : List ℚ) :
    (List.enum l).Pairwise fun a b => a.1 < b.1 := by
  rw [List.pairwise_iff_getElem]
  intro i j hi hj hij
  rw [List.getElem_enum, List.getElem_enum]
  exact hij

theorem pairwise_rankRel_sortDesc_enum (distances : List ℚ) :
    (sortDesc (List.enum distances)).Pairwise rankRel :=
  pairwise_rankRel_sortDesc (pairwise_fst_lt_enum distances)

theorem pySlice_sublist {α : Type*} (l : List α) (a b : ℤ) :
    (pySlice l a b).Sublist l := by
  unfold pySlice
  exact (List.take_sublist _ _).trans (List.drop_sublist _ _)

theorem pyBound_one {len : ℤ} (hlen : 1 ≤ len) : pyBound len 1 = 1 := by
  unfold pyBound
  rw [if_neg (by omega)]
  omega

theorem pySlice_one_nonneg {α : Type*} (l : List α) (k : ℤ) (hk : 0 ≤ k) :
    pySlice l 1 (k + 1) = (l.drop 1).take k.toNat := by
  rcases l with _ | ⟨x, xs⟩
  · simp [pySlice]
  · unfold pySlice
    rw [pyBound_one (by simp only [List.length_cons]; omega)]
    have hb : pyBound ((x :: xs).length : ℤ) (k + 1) =
        min (k + 1) ((x :: xs).length : ℤ) := by
      unfold pyBound
      rw [if_neg (by omega)]
    rw [hb]
    have hone : (1 : ℤ).toNat = 1 := rfl
    rw [hone, List.take_eq_take]
    simp only [List.length_drop, List.length_cons]
    omega

theorem pySlice_one_zero {α : Type*} (l : List α) : pySlice l 1 0 = [] := by
  unfold pySlice
  have hb : pyBound (l.length : ℤ) 0 = 0 := by
    unfold pyBound
    rw [if_neg (by omega)]
    omega
  have hs : 0 ≤ pyBound (l.length : ℤ) 1 := by
    unfold pyBound
    rw [if_neg (by omega)]
    omega
  rw [hb]
  have : ((0 : ℤ) - pyBound (l.length : ℤ) 1).toNat = 0 := by omega
  rw [this, List.take_zero]

theorem pySlice_one_neg {α : Type*} (l : List α) (n : ℤ) (hn : n + 1 < 0) :
    pySlice l 1 (n + 1) = (l.drop 1).take ((l.length : ℤ) + n).toNat := by
  rcases l with _ | ⟨x, xs⟩
  · simp [pySlice]
  · unfold pySlice
    rw [pyBound_one (by simp only [List.length_cons]; omega)]
    have hb : pyBound ((x :: xs).length : ℤ) (n + 1) =
        max 0 (((x :: xs).length : ℤ) + (n + 1)) := by
      unfold pyBound
      rw [if_pos hn]
    rw [hb]
    have hone : (1 : ℤ).toNat = 1 := rfl
    rw [hone, List.take_eq_take]
    simp only [List.length_drop, List.length_cons]
    omega

theorem movies_list_mem {distances : List ℚ} {n : ℤ} {p : ℕ × ℚ}
    (hp : p ∈ movies_list distances n) : distances[p.1]? = some p.2 :=
  List.mem_enum_iff_getElem?.mp
    (mem_sortDesc.mp ((pySlice_sublist _ _ _).subset hp))

theorem movies_list_fst_lt {distances : List ℚ} {n : ℤ} {p : ℕ × ℚ}
    (hp : p ∈ movies_list distances n) : p.1 < distances.length := by
  rcases List.getElem?_eq_some.mp (movies_list_mem hp) with ⟨h, _⟩
  exact h

theorem buildRecs_spec {titles : List String} {ps : List (ℕ × ℚ)}
    (h : ∀ p ∈ ps, p.1 < titles.length) :
    ∃ r, buildRecs titles ps = some r ∧ r.length = ps.length ∧
      r.map RecMovie.similarity = ps.map (fun p => formatPercent p.2) ∧
      ∀ e ∈ r, ∃ p ∈ ps, titles[p.1]? = some e.title ∧
        e.similarity = formatPercent p.2 := by
  induction ps with
  | nil => exact ⟨[], rfl, rfl, rfl, by simp⟩
  | cons p ps ih =>
    have hp : p.1 < titles.length := h p (List.mem_cons_self _ _)
    have ht : titles[p.1]? = some (titles[p.1]) := List.getElem?_eq_getElem hp
    rcases ih (fun q hq => h q (List.mem_cons_of_mem _ hq)) with
      ⟨r, hr, hlen, hmap, hmem⟩
    refine ⟨⟨titles[p.1], formatPercent p.2⟩ :: r, ?_, by simp [hlen],
      by simp [hmap], ?_⟩
    · simp [buildRecs, ht, hr]
    · intro e he
      rcases List.mem_cons.mp he with rfl | he'
      · exact ⟨p, List.mem_cons_self _ _, ht, rfl⟩
      · rcases hmem e he' with ⟨q, hq, h1, h2⟩
        exact ⟨q, List.mem_cons_of_mem _ hq, h1, h2⟩

theorem buildRecs_eq_none_iff {titles : List String} {ps : List (ℕ × ℚ)} :
    buildRecs titles ps = none ↔ ∃ p ∈ ps, titles[p.1]? = none := by
  induction ps with
  | nil => simp [buildRecs]
  | cons p ps ih =>
    constructor
    · intro hnone
      cases h : titles[p.1]? with
      | none => exact ⟨p, List.mem_cons_self _ _, h⟩
      | some t =>
        cases hb : buildRecs titles ps with
        | none =>
          rcases ih.mp hb with ⟨q, hq, hqt⟩
          exact ⟨q, List.mem_cons_of_mem _ hq, hqt⟩
        | some rest =>
          have heq : buildRecs titles (p :: ps) = some (⟨t, formatPercent p.2⟩ :: rest) := by
            simp [buildRecs, h, hb]
          rw [heq] at hnone
          exact Option.noConfusion hnone
    · intro hex
      rcases hex with ⟨q, hq, hqt⟩
      rcases List.mem_cons.mp hq with rfl | hq'
      · simp [buildRecs, hqt]
      · have hb : buildRecs titles ps = none := ih.mpr ⟨q, hq', hqt⟩
        cases ht : titles[p.1]? with
        | none => simp [buildRecs, ht]
        | some t => simp [buildRecs, ht, hb]

theorem get_recommendations_eq {movie_title : String} {titles : List String}
    {similarity : List (List ℚ)} {n : ℤ} {i : ℕ} {distances : List ℚ}
    (hfind : titles.findIdx? (fun t => t == movie_title) = some i)
    (hrow : similarity[i]? = some distances) :
    get_recommendations movie_title titles similarity n =
      buildRecs titles (movies_list distances n) := by
  simp only [get_recommendations, hfind, hrow]

theorem reSearch_nil_pattern (cs : List Char) : reSearch [] cs = true := by
  induction cs with
  | nil => rfl
  | cons c cs ih => simp [reSearch, reMatchHere, ih]

theorem filtered_movies_empty_query (titles : List String) :
    filtered_movies titles "" = titles := by
  unfold filtered_movies
  apply List.filter_eq_self.mpr
  intro t _
  exact reSearch_nil_pattern _

theorem reMatchHere_eq_lit (ps : List Char) :
    ∀ (cs : List Char), (∀ c ∈ ps, c ≠ '.') → reMatchHere ps cs = litMatchHere ps cs := by
  induction ps with
  | nil => intro cs _; cases cs <;> rfl
  | cons p ps ih =>
    intro cs h
    cases cs with
    | nil => rfl
    | cons c cs =>
      have hp : p ≠ '.' := h p (List.mem_cons_self _ _)
      have hpb : (p == '.') = false := by simpa using hp
      simp only [reMatchHere, litMatchHere, hpb, Bool.false_or,
        ih cs (fun d hd => h d (List.mem_cons_of_mem _ hd))]

theorem reSearch_eq_lit (ps cs : List Char) (h : ∀ c ∈ ps, c ≠ '.') :
    reSearch ps cs = litSearch ps cs := by
  induction cs with
  | nil => simp [reSearch, litSearch, reMatchHere_eq_lit ps [] h]
  | cons c cs ih =>
    simp [reSearch, litSearch, reMatchHere_eq_lit ps (c :: cs) h, ih]

theorem buildRecs_mem_of_eq_some {titles : List String} {ps : List (ℕ × ℚ)}
    {r : List RecMovie} (h : buildRecs titles ps = some r) :
    ∀ e ∈ r, ∃ p ∈ ps, titles[p.1]? = some e.title ∧
      e.similarity = formatPercent p.2 := by
  induction ps generalizing r with
  | nil =>
    simp only [buildRecs, Option.some.injEq] at h
    subst h
    simp
  | cons p ps ih =>
    cases ht : titles[p.1]? with
    | none =>
      simp only [buildRecs, ht] at h
      exact Option.noConfusion h
    | some t =>
      cases hb : buildRecs titles ps with
      | none =>
        simp only [buildRecs, ht, hb] at h
        exact Option.noConfusion h
      | some rest =>
        simp only [buildRecs, ht, hb, Option.some.injEq] at h
        subst h
        intro e he
        rcases List.mem_cons.mp he with rfl | he'
        · exact ⟨p, List.mem_cons_self _ _, ht, rfl⟩
        · rcases ih hb e he' with ⟨q, hq, h1, h2⟩
          exact ⟨q, List.mem_cons_of_mem _ hq, h1, h2⟩

theorem rankRel_le {a b : ℕ × ℚ} (h : rankRel a b) : b.2 ≤ a.2 := by
  rcases h with h | ⟨h, _⟩
  · exact le_of_lt h
  · exact le_of_eq h.symm

/-- C1 (code bug in the source): contrary to the claim, get_recommendations
excludes the query by position, not by identity.  With Catalog A, B, an
all-ones similarity matrix and query B, item A (tied at the maximal score 1.0
with a smaller index) occupies the sorted head, the slice [1:n+1] drops it,
and the query title B itself appears in the result. -/
theorem recommend_includes_query_on_tied_max :
    get_recommendations "B" ["A", "B"] [[1, 1], [1, 1]] 3 =
      some [{ title := "B", similarity := "100.00%" }] := by decide!

/-- C2: the (index, score) pairs of the query row are sorted by score
descending and, whenever scores tie, the tied pairs keep their ascending
original index order (stable descending sort); concretely, for Catalog
A, B, C whose row for A is 1.0, 0.5, 0.5, recommending for A with count 2
returns B before C. -/
theorem sort_stable_descending_tie_ascending_index :
    (∀ distances : List ℚ,
      (sortDesc (List.enum distances)).Pairwise rankRel) ∧
      (get_recommendations "A" ["A", "B", "C"]
          [[1, 1/2, 1/2], [1/2, 1, 1/2], [1/2, 1/2, 1]] 2).map
          (fun r => r.map RecMovie.title) = some ["B", "C"] :=
  ⟨fun distances => pairwise_rankRel_sortDesc_enum distances, by decide!⟩

/-- C3: for a catalog of size M with a square similarity matrix, a title
present in the catalog and a valid count n, get_recommendations succeeds, the
result length is exactly min n (M - 1), and the score sequence the result is
built from is non-increasing from first to last entry. -/
theorem recommend_length_and_sorted_scores
    (titles : List String) (similarity : List (List ℚ)) (movie_title : String)
    (n : ℤ) (i : ℕ)
    (hn3 : 3 ≤ n) (hn10 : n ≤ 10)
    (hfind : titles.findIdx? (fun t => t == movie_title) = some i)
    (hsq : similarity.length = titles.length)
    (hrows : ∀ row ∈ similarity, row.length = titles.length) :
    ∃ r distances, similarity[i]? = some distances ∧
      get_recommendations movie_title titles similarity n = some r ∧
      r.length = min n.toNat (titles.length - 1) ∧
      (movies_list distances n).Pairwise (fun a b => b.2 ≤ a.2) ∧
      r.map RecMovie.similarity =
        (movies_list distances n).map fun p => formatPercent p.2 := by
  have hi : i < titles.length := by
    rcases List.findIdx?_eq_some_iff_getElem.mp hfind with ⟨h, _, _⟩
    exact h
  have hi' : i < similarity.length := by omega
  have hrowi : similarity[i]? = some (similarity[i]) :=
    List.getElem?_eq_getElem hi'
  have hdim : (similarity[i]).length = titles.length :=
    hrows _ (List.getElem_mem hi')
  have hbound : ∀ p ∈ movies_list (similarity[i]) n, p.1 < titles.length :=
    fun p hp => by have := movies_list_fst_lt hp; omega
  rcases buildRecs_spec hbound with ⟨r, hr, hlen, hmap, _⟩
  refine ⟨r, similarity[i], hrowi, ?_, ?_, ?_, hmap⟩
  · rw [get_recommendations_eq hfind hrowi, hr]
  · have hml : movies_list (similarity[i]) n =
        ((sortDesc (List.enum (similarity[i]))).drop 1).take n.toNat :=
      pySlice_one_nonneg _ n (by omega)
    rw [hlen, hml]
    simp only [List.length_take, List.length_drop, length_sortDesc,
      List.enum_length]
    rw [hdim]
  · exact ((pairwise_rankRel_sortDesc_enum _).sublist
      (pySlice_sublist _ _ _)).imp rankRel_le

/-- C4: the query title is resolved to the first catalog entry equal to it,
exactly and case-sensitively, so with duplicate titles the lowest index wins,
and an unmatched title makes get_recommendations fail with None. -/
theorem movie_index_first_exact_match (titles : List String) (movie_title : String) :
    (∀ i : ℕ, titles.findIdx? (fun t => t == movie_title) = some i ↔
      titles[i]? = some movie_title ∧ ∀ j < i, titles[j]? ≠ some movie_title) ∧
    (titles.findIdx? (fun t => t == movie_title) = none →
      ∀ similarity n, get_recommendations movie_title titles similarity n = none) := by
  constructor
  · intro i
    rw [List.findIdx?_eq_some_iff_getElem]
    constructor
    · rintro ⟨h, hp, hj⟩
      refine ⟨?_, ?_⟩
      · rw [List.getElem?_eq_getElem h]
        simpa using hp
      · intro j hj' hcontra
        have hjlen : j < titles.length := lt_trans hj' h
        rw [List.getElem?_eq_getElem hjlen] at hcontra
        have heq : titles[j] = movie_title := by simpa using hcontra
        have hj2 := hj j hj'
        exact hj2 (by simp [heq])
    · rintro ⟨h1, h2⟩
      rcases List.getElem?_eq_some.mp h1 with ⟨hlen, heq⟩
      refine ⟨hlen, by simp [heq], ?_⟩
      intro j hj
      have hjlen : j < titles.length := lt_trans hj hlen
      have hne := h2 j hj
      rw [List.getElem?_eq_getElem hjlen] at hne
      simp only [Bool.not_eq_true, beq_eq_false_iff_ne, ne_eq]
      intro hbeq
      exact hne (by simp [hbeq])
  · intro h similarity n
    simp [get_recommendations, h]

/-- Witness for movie_index_first_exact_match: with a duplicated title A the
resolved index is 0, the lowest matching position. -/
theorem movie_index_first_exact_match_witness :
    ["A", "B", "A"].findIdx? (fun t => t == "A") = some 0 :=
  ((movie_index_first_exact_match ["A", "B", "A"] "A").1 0).mpr (by decide!)

/-- C5 counterexample: the search query is interpreted as a regular
expression, not a literal substring.  The query consisting of a single dot
matches the title AXB, which does not contain a literal dot, while the
literal-substring reading of the claim returns nothing. -/
theorem search_dot_matches_non_literal :
    filtered_movies ["AXB"] "." = ["AXB"] ∧ searchSpec ["AXB"] "." = [] := by decide!

/-- C5 (amended): search interprets the query as a case-insensitive regular
expression (pandas str.contains keeps its regex default).  The empty query
returns the full title list, and a query free of regex metacharacters returns
exactly the titles containing it as a case-insensitive literal substring, in
catalog order. -/
theorem search_case_insensitive_regex (titles : List String) (q : String) :
    filtered_movies titles "" = titles ∧
      ((∀ c ∈ q.toList, c ∉ regexSpecialChars) →
        filtered_movies titles q = searchSpec titles q) := by
  refine ⟨filtered_movies_empty_query titles, ?_⟩
  intro h
  have hnd : ∀ c ∈ q.toList, c ≠ '.' := by
    intro c hc hdot
    exact h c hc (by rw [hdot]; decide)
  unfold filtered_movies searchSpec
  apply List.filter_congr
  intro t _
  exact reSearch_eq_lit q.toList t.toList hnd

/-- Witness for search_case_insensitive_regex: the metacharacter-free query
bat behaves as a case-insensitive substring search. -/
theorem search_case_insensitive_regex_witness :
    filtered_movies ["Batman Begins", "Superman"] "bat" =
      searchSpec ["Batman Begins", "Superman"] "bat" :=
  (search_case_insensitive_regex ["Batman Begins", "Superman"] "bat").2 (by decide!)

/-- C6 counterexample: a requested count of 0 lies outside the permitted
range [3,10], yet the Recommend operation does not reject it: the title
lookup happens and a successful (non-error) empty result is returned. -/
theorem count_zero_not_rejected :
    ((0 : ℤ) < 3 ∨ 10 < (0 : ℤ)) ∧
      get_recommendations "A" ["A", "B"] [[1, 4/5], [4/5, 1]] 0 = some [] := by decide!

/-- C6 (amended): the range [3,10] for the recommendation count is enforced
only by the bounds of the UI slider; the engine itself performs no count
validation and, for a found title over a well-formed matrix, returns a
successful result for every count. -/
theorem count_range_is_ui_only
    (titles : List String) (similarity : List (List ℚ)) (movie_title : String)
    (n : ℤ) (i : ℕ) (distances : List ℚ)
    (hfind : titles.findIdx? (fun t => t == movie_title) = some i)
    (hrow : similarity[i]? = some distances)
    (hdim : distances.length ≤ titles.length) :
    slider_min_value = 3 ∧ slider_max_value = 10 ∧
      (get_recommendations movie_title titles similarity n).isSome = true := by
  refine ⟨rfl, rfl, ?_⟩
  rcases buildRecs_spec
      (fun p hp => lt_of_lt_of_le (movies_list_fst_lt hp) hdim) with
    ⟨r, hr, _, _, _⟩
  rw [get_recommendations_eq hfind hrow, hr]
  rfl

/-- Witness for count_range_is_ui_only: the out-of-range count -7 is accepted
and produces a successful result. -/
theorem count_range_is_ui_only_witness :
    (get_recommendations "A" ["A", "B"] [[1, 0], [0, 1]] (-7)).isSome = true :=
  (count_range_is_ui_only ["A", "B"] [[1, 0], [0, 1]] "A" (-7) 0 [1, 0]
    (by decide!) (by decide!) (by decide!)).2.2

/-- C7 counterexample: load_data performs no dimension validation; a catalog
of length 2 paired with a 1-by-1 similarity matrix is loaded and both stores
are exposed despite the mismatch. -/
theorem load_data_accepts_dimension_mismatch :
    load_data (some ["A", "B"]) (some [[1]]) = (some ["A", "B"], some [[1]]) ∧
      ["A", "B"].length ≠ [[(1 : ℚ)]].length := by decide!

/-- C7 (amended): load_data reads both artifacts and on any read failure
exposes neither store, so no partial state is observable; but it performs no
dimension check, so any successfully read pair is exposed as loaded, whether
or not the dimensions agree. -/
theorem load_data_exposes_both_or_neither
    (readMovies : Option (List String)) (readSim : Option (List (List ℚ))) :
    ((readMovies = none ∨ readSim = none) →
      load_data readMovies readSim = (none, none)) ∧
    ∀ movies_df similarity, readMovies = some movies_df → readSim = some similarity →
      load_data readMovies readSim = (some movies_df, some similarity) := by
  cases readMovies <;> cases readSim <;> simp [load_data]

/-- Witness for load_data_exposes_both_or_neither: two successful reads are
both exposed. -/
theorem load_data_exposes_both_or_neither_witness :
    load_data (some ["A"]) (some [[1]]) = (some ["A"], some [[1]]) :=
  (load_data_exposes_both_or_neither (some ["A"]) (some [[1]])).2 ["A"] [[1]] rfl rfl

/-- C8 counterexample: the similarity field of a result entry is not the raw
numeric score: two matrices whose scores differ (one third against 0.3333)
produce literally identical results, because the field stores the score
formatted to two decimal places as a percentage string. -/
theorem similarity_field_not_raw_value :
    get_recommendations "A" ["A", "B"] [[1, 1/3], [1/3, 1]] 3 =
      get_recommendations "A" ["A", "B"] [[1, 3333/10000], [3333/10000, 1]] 3 ∧
      (1/3 : ℚ) ≠ 3333/10000 := by decide!

/-- C8 (amended): each element of a successful result pairs the catalog title
at the picked index with the raw similarity value of the query row at that
index formatted as a two-decimal percentage string, not with the raw float
itself. -/
theorem recommend_entries_titles_and_formatted_scores
    (titles : List String) (similarity : List (List ℚ)) (movie_title : String)
    (n : ℤ) (i : ℕ) (distances : List ℚ) (r : List RecMovie)
    (hfind : titles.findIdx? (fun t => t == movie_title) = some i)
    (hrow : similarity[i]? = some distances)
    (hres : get_recommendations movie_title titles similarity n = some r) :
    ∀ e ∈ r, ∃ (j : ℕ) (s : ℚ), distances[j]? = some s ∧
      titles[j]? = some e.title ∧ e.similarity = formatPercent s := by
  rw [get_recommendations_eq hfind hrow] at hres
  intro e he
  rcases buildRecs_mem_of_eq_some hres e he with ⟨p, hp, h1, h2⟩
  exact ⟨p.1, p.2, movies_list_mem hp, h1, h2⟩

/-- Witness for recommend_entries_titles_and_formatted_scores at the spec
scenario catalog: the entry for B is built from the raw row value 0.8. -/
theorem recommend_entries_titles_and_formatted_scores_witness :
    ∃ (j : ℕ) (s : ℚ), [(1 : ℚ), 4/5, 1/5][j]? = some s ∧
      ["A", "B", "C"][j]? = some "B" ∧ "80.00%" = formatPercent s := by
  rcases recommend_entries_titles_and_formatted_scores ["A", "B", "C"]
      [[1, 4/5, 1/5], [4/5, 1, 1/10], [1/5, 1/10, 1]] "A" 3 0 [(1 : ℚ), 4/5, 1/5]
      [{ title := "B", similarity := "80.00%" }, { title := "C", similarity := "20.00%" }]
      (by decide!) (by decide!) (by decide!)
      { title := "B", similarity := "80.00%" } (by decide!) with ⟨j, s, h1, h2, h3⟩
  exact ⟨j, s, h1, h2, h3⟩

/-- C9: get_recommendations performs no validation of the count argument.
For a found title over a square matrix the call always succeeds; the counts 0
and -1 both yield the empty list as a non-error result; and a count n below
-1 with catalog size M larger than the magnitude of n yields, through the
Python slice [1:n+1], the non-empty list of the entries at sorted positions 1
through M + n. -/
theorem count_never_validated
    (titles : List String) (similarity : List (List ℚ)) (movie_title : String)
    (i : ℕ) (distances : List ℚ)
    (hfind : titles.findIdx? (fun t => t == movie_title) = some i)
    (hrow : similarity[i]? = some distances)
    (hdim : distances.length = titles.length) :
    (∀ n : ℤ, (get_recommendations movie_title titles similarity n).isSome = true) ∧
    get_recommendations movie_title titles similarity 0 = some [] ∧
    get_recommendations movie_title titles similarity (-1) = some [] ∧
    ∀ n : ℤ, n < -1 → 1 ≤ (titles.length : ℤ) + n →
      ∃ r, get_recommendations movie_title titles similarity n = some r ∧
        r ≠ [] ∧ (r.length : ℤ) = (titles.length : ℤ) + n ∧
        movies_list distances n =
          ((sortDesc (List.enum distances)).drop 1).take
            ((titles.length : ℤ) + n).toNat := by
  have hbound : ∀ n : ℤ, ∀ p ∈ movies_list distances n, p.1 < titles.length :=
    fun n p hp => by have := movies_list_fst_lt hp; omega
  refine ⟨?_, ?_, ?_, ?_⟩
  · intro n
    rcases buildRecs_spec (hbound n) with ⟨r, hr, _, _, _⟩
    rw [get_recommendations_eq hfind hrow, hr]
    rfl
  · rw [get_recommendations_eq hfind hrow]
    have hml : movies_list distances 0 = [] := by
      have h := pySlice_one_nonneg (sortDesc (List.enum distances)) 0 le_rfl
      simpa [movies_list] using h
    rw [hml]
    rfl
  · rw [get_recommendations_eq hfind hrow]
    have hml : movies_list distances (-1) = [] := by
      have h := pySlice_one_zero (sortDesc (List.enum distances))
      have he : ((-1 : ℤ) + 1) = 0 := by norm_num
      unfold movies_list
      rw [he]
      exact h
    rw [hml]
    rfl
  · intro n hn hMn
    have hml : movies_list distances n =
        ((sortDesc (List.enum distances)).drop 1).take
          ((titles.length : ℤ) + n).toNat := by
      have h := pySlice_one_neg (sortDesc (List.enum distances)) n (by omega)
      rw [length_sortDesc, List.enum_length, hdim] at h
      exact h
    rcases buildRecs_spec (hbound n) with ⟨r, hr, hlen, _, _⟩
    refine ⟨r, ?_, ?_, ?_, hml⟩
    · rw [get_recommendations_eq hfind hrow, hr]
    · have hlen2 : r.length = (movies_list distances n).length := by rw [hlen]
      rw [hml] at hlen2
      simp only [List.length_take, List.length_drop, length_sortDesc,
        List.enum_length, hdim] at hlen2
      have hpos : 0 < r.length := by omega
      exact List.ne_nil_of_length_pos hpos
    · have hlen2 : r.length = (movies_list distances n).length := by rw [hlen]
      rw [hml] at hlen2
      simp only [List.length_take, List.length_drop, length_sortDesc,
        List.enum_length, hdim] at hlen2
      omega

/-- Witness for count_never_validated: a five-movie catalog accepts the
out-of-range count 0 and returns an empty success. -/
theorem count_never_validated_witness :
    get_recommendations "A" ["A", "B", "C", "D", "E"]
      [[1, 1/2, 1/3, 1/4, 1/5], [1/2, 1, 0, 0, 0], [1/3, 0, 1, 0, 0],
       [1/4, 0, 0, 1, 0], [1/5, 0, 0, 0, 1]] 0 = some [] :=
  (count_never_validated ["A", "B", "C", "D", "E"]
    [[1, 1/2, 1/3, 1/4, 1/5], [1/2, 1, 0, 0, 0], [1/3, 0, 1, 0, 0],
     [1/4, 0, 0, 1, 0], [1/5, 0, 0, 0, 1]] "A" 0 [1, 1/2, 1/3, 1/4, 1/5]
    (by decide!) (by decide!) (by decide!)).2.1

/-- C10: get_recommendations returns None exactly when an IndexError arises
inside the lookup: the query title matching no catalog entry, the resolved
row index falling outside the similarity matrix, or a sorted-and-sliced pair
carrying a column index outside the catalog (a dimension mismatch) — and in
all these cases the None result is the same, so the failures are
indistinguishable at this interface. -/
theorem get_recommendations_none_iff
    (titles : List String) (similarity : List (List ℚ)) (movie_title : String)
    (n : ℤ) :
    get_recommendations movie_title titles similarity n = none ↔
      titles.findIdx? (fun t => t == movie_title) = none ∨
      ∃ i, titles.findIdx? (fun t => t == movie_title) = some i ∧
        (similarity[i]? = none ∨
          ∃ distances, similarity[i]? = some distances ∧
            ∃ p ∈ movies_list distances n, titles[p.1]? = none) := by
  cases hf : titles.findIdx? (fun t => t == movie_title) with
  | none => simp [get_recommendations, hf]
  | some i =>
    cases hs : similarity[i]? with
    | none =>
      constructor
      · intro _
        exact Or.inr ⟨i, rfl, Or.inl hs⟩
      · intro _
        simp [get_recommendations, hf, hs]
    | some distances =>
      rw [get_recommendations_eq hf hs, buildRecs_eq_none_iff]
      constructor
      · intro hex
        exact Or.inr ⟨i, rfl, Or.inr ⟨distances, hs, hex⟩⟩
      · rintro (hnone | ⟨i2, hi2, hrest⟩)
        · exact Option.noConfusion hnone
        · injection hi2 with hi2
          subst hi2
          rcases hrest with hnone | ⟨d, hd, hex⟩
          · rw [hs] at hnone
            exact Option.noConfusion hnone
          · rw [hs] at hd
            injection hd with hd
            subst hd
            exact hex

/-- Witness for get_recommendations_none_iff: an unmatched query title yields
None. -/
theorem get_recommendations_none_iff_witness :
    get_recommendations "Z" ["A", "B", "C"]
      [[1, 4/5, 1/5], [4/5, 1, 1/10], [1/5, 1/10, 1]] 5 = none :=
  (get_recommendations_none_iff ["A", "B", "C"]
    [[1, 4/5, 1/5], [4/5, 1, 1/10], [1/5, 1/10, 1]] "Z" 5).mpr
    (Or.inl (by decide!))

/-- Witness for recommend_length_and_sorted_scores at the concrete corpus of
the spec scenario: the call succeeds. -/
theorem recommend_length_and_sorted_scores_witness :
    (get_recommendations "A" ["A", "B", "C"]
      [[1, 4/5, 1/5], [4/5, 1, 1/10], [1/5, 1/10, 1]] 3).isSome = true := by
  rcases recommend_length_and_sorted_scores ["A", "B", "C"]
      [[1, 4/5, 1/5], [4/5, 1, 1/10], [1/5, 1/10, 1]] "A" 3 0
      (by decide!) (by decide!) (by decide!) (by decide!) (by decide!) with
    ⟨r, d, _, hsome, _, _, _⟩
  rw [hsome]
  rfl
